import Mathlib

/-!
Verification development for the Holi Splash minigame core
(player movement and collision, NPC motion and avoidance, shooting and
scoring, water refill state machine).

The embedding follows the source files:
  src/unnamed/part_002            (HoliGameInternal component: updateGame,
                                   handleShoot, startRefilling, stopRefilling)
  src/src/components/HoliGame.tsx (handleShoot, startRefilling, updateGame)
  src/src/models/gameModels.ts    (class NPC: getColored, update)

Numeric conventions: the source performs JavaScript number arithmetic;
we embed positions and distances as rationals.  In the source every
distance test has the shape Math.sqrt(dx*dx + dz*dz) < t with t a
positive constant; since both sides are nonnegative and squaring is
monotone, this is equivalent to dx*dx + dz*dz < t*t, which is the form
used below.  Water level and score are integers in the source (all
mutations add or subtract integer constants), embedded as Int.
Randomness (random NPC headings) is embedded as an oracle input: the
freshly drawn direction vector is a parameter of the tick.
-/

namespace HoliSplash

/-- Ground-plane position or direction (camera and NPC movement only ever
changes x and z; the y coordinate is terrain height, an external concern). -/
structure Vec2 where
  x : ℚ
  z : ℚ
deriving DecidableEq

def vadd (a b : Vec2) : Vec2 := ⟨a.x + b.x, a.z + b.z⟩

def vsmul (c : ℚ) (v : Vec2) : Vec2 := ⟨c * v.x, c * v.z⟩

/-- Squared ground-plane distance: the source computes
Math.sqrt(dx*dx + dz*dz) and compares it against a constant threshold. -/
def distSq (a b : Vec2) : ℚ :=
  (a.x - b.x) * (a.x - b.x) + (a.z - b.z) * (a.z - b.z)

/-- mapSizeRef.current = 30 (part_002 line 464). -/
def mapSize : ℚ := 30

/-- const halfSize = mapSizeRef.current / 2. -/
def halfMap : ℚ := mapSize / 2

/-- Math.max(-h, Math.min(h, v)): the player boundary clamp
(part_002 lines 1128-1130). -/
def clampAxis (h v : ℚ) : ℚ := max (-h) (min h v)

def clampVec (h : ℚ) (p : Vec2) : Vec2 := ⟨clampAxis h p.x, clampAxis h p.z⟩

/-- The NPC boundary clamp written with two if statements
(gameModels.ts lines 374-377 and part_002 lines 1035-1038). -/
def npcClampAxis (h v : ℚ) : ℚ := if h < v then h else if v < -h then -h else v

def npcClampVec (h : ℚ) (p : Vec2) : Vec2 := ⟨npcClampAxis h p.x, npcClampAxis h p.z⟩

/-- NPC.moveSpeed = 0.02 (gameModels.ts). -/
def npcMoveSpeed : ℚ := 0.02

/-- Position part of NPC.update (gameModels.ts lines 353-378):
translate by moveDirection * moveSpeed, then clamp to the fixed +-15 box.
The direction in force this tick is the dir argument (directions are
drawn by setRandomDirection, an oracle from the viewpoint of this embedding;
the bound invariants hold for every direction vector). -/
def npcUpdatePos (pos dir : Vec2) : Vec2 :=
  npcClampVec 15 (vadd pos (vsmul npcMoveSpeed dir))

/-- One updateGame tick for one NPC position (part_002 lines 1030-1038):
npc.update() followed by the mapSize/2 boundary clamp. -/
def npcTickPos (pos dir : Vec2) : Vec2 :=
  npcClampVec halfMap (npcUpdatePos pos dir)

/-- Movement-relevant key flags; w stands for keysPressed w or arrowup,
and so on for s, a, d; q and e rotate only but do set the moved flag. -/
structure Keys where
  w : Bool
  s : Bool
  a : Bool
  d : Bool
  q : Bool
  e : Bool
deriving DecidableEq

def movedFlag (k : Keys) : Bool := k.w || k.s || k.a || k.d || k.q || k.e

/-- const moveSpeed = 0.15 (part_002 line 136). -/
def moveSpeed : ℚ := 0.15

/-- The four position mutations of updateGame (part_002 lines 1075-1090),
applied in source order; fwd and right are the ground-projected camera
forward and right vectors. -/
def applyMoveKeys (k : Keys) (fwd right p : Vec2) : Vec2 :=
  let p1 := if k.w then vadd p (vsmul moveSpeed fwd) else p
  let p2 := if k.s then vadd p1 (vsmul (-moveSpeed) fwd) else p1
  let p3 := if k.a then vadd p2 (vsmul (-moveSpeed) right) else p2
  if k.d then vadd p3 (vsmul moveSpeed right) else p3

/-- Obstacle collision test of updateGame (part_002 lines 1109-1120):
some obstacle center lies strictly within 1.0 ground-plane unit. -/
def collides (obs : List Vec2) (p : Vec2) : Bool :=
  obs.any (fun o => decide (distSq o p < 1))

/-- Player position part of one updateGame tick (part_002 lines
1056-1135): runs only while gameStarted; applies all movement intents,
then, if the moved flag is set, reverts the whole move on obstacle
collision and clamps to the map bounds. -/
def playerUpdate (started : Bool) (obs : List Vec2) (h : ℚ) (k : Keys)
    (fwd right p : Vec2) : Vec2 :=
  if started then
    let tentative := applyMoveKeys k fwd right p
    if movedFlag k then
      let resolved := if collides obs tentative then p else tentative
      clampVec h resolved
    else tentative
  else p

/-- Input of one whole updateGame tick: the gameStarted flag, the key
flags, the camera-derived ground vectors, and the direction each NPC
moves with this tick (indexed by NPC list position). -/
structure TickInput where
  started : Bool
  keys : Keys
  fwd : Vec2
  right : Vec2
  npcDir : ℕ → Vec2

/-- Simulation state tracked by the bounds claims. -/
structure World where
  player : Vec2
  npcs : List Vec2

/-- The NPC loop of updateGame, threading the list index used to look up
the direction of each NPC for this tick. -/
def npcsTick (dirs : ℕ → Vec2) : ℕ → List Vec2 → List Vec2
  | _, [] => []
  | i, p :: rest => npcTickPos p (dirs i) :: npcsTick dirs (i + 1) rest

/-- One whole updateGame tick: every NPC updates (this loop runs even
before the game starts), then the player moves. -/
def worldTick (obs : List Vec2) (inp : TickInput) (w : World) : World :=
  { npcs := npcsTick inp.npcDir 0 w.npcs
    player := playerUpdate inp.started obs halfMap inp.keys inp.fwd inp.right w.player }

def runWorld (obs : List Vec2) (w : World) : List TickInput → World
  | [] => w
  | inp :: rest => runWorld obs (worldTick obs inp w) rest

/-- Within the square [-mapSize/2, mapSize/2] on both ground axes. -/
def inBounds (p : Vec2) : Prop :=
  -halfMap ≤ p.x ∧ p.x ≤ halfMap ∧ -halfMap ≤ p.z ∧ p.z ≤ halfMap

instance (p : Vec2) : Decidable (inBounds p) := by
  unfold inBounds; infer_instance

/-! Shooting and NPC coloring (handleShoot in part_002 lines 1211-1282 and
HoliGame.tsx lines 524-595; NPC.getColored in gameModels.ts lines 380-393). -/

/-- World-space point of a ray intersection. -/
abbrev Point := ℚ × ℚ × ℚ

/-- One entry of the list returned by raycaster.intersectObjects,
ordered nearest first (the three.js contract).  chain is the hit object
followed by its scene-graph ancestors up to the root, the path walked by
the while loop over parent pointers. -/
structure Intersection where
  chain : List ℕ
  point : Point
deriving DecidableEq

/-- NPC state touched by getColored (gameModels.ts).  hasModel embeds the
this.model null check; createModel runs in the constructor, so live NPCs
have hasModel true. -/
structure NPCColor where
  colorLevel : ℤ
  isColored : Bool
  hasModel : Bool
deriving DecidableEq

/-- Field initializers of class NPC: colorLevel = 0, isColored = false,
and the constructor builds the model. -/
def initNPC : NPCColor := ⟨0, false, true⟩

/-- NPC.getColored (gameModels.ts lines 380-393): no-op when the model is
missing or colorLevel is already at least 3; otherwise increment
colorLevel and set isColored.  The hitPoint argument only places the
cosmetic splash, so it does not appear in the color state. -/
def getColoredStep (n : NPCColor) : NPCColor :=
  if n.hasModel = false ∨ 3 ≤ n.colorLevel then n
  else ⟨n.colorLevel + 1, true, n.hasModel⟩

/-- k calls of getColored in a row (the only mutator of colorLevel). -/
def applyHits (n : NPCColor) : ℕ → NPCColor
  | 0 => n
  | k + 1 => getColoredStep (applyHits n k)

/-- The inner while loop of handleShoot: walk the parent chain of a hit
object and return the index of the first NPC whose model is on it
(npcsRef.current.findIndex(npc => npc.model === parent)). -/
def findNPCInChain (models : List ℕ) : List ℕ → Option ℕ
  | [] => none
  | o :: rest =>
    match models.findIdx? (fun m => m == o) with
    | some i => some i
    | none => findNPCInChain models rest

/-- The outer for loop of handleShoot: scan all intersections in list
order and stop at the first one whose chain reaches an NPC, returning
that NPC index and the point of that intersection. -/
def findNPCHit (models : List ℕ) : List Intersection → Option (ℕ × Point)
  | [] => none
  | it :: rest =>
    match findNPCInChain models it.chain with
    | some i => some (i, it.point)
    | none => findNPCHit models rest

/-- Session state read and written by handleShoot. -/
structure ShootState where
  gameStarted : Bool
  waterLevel : ℤ
  score : ℤ
  npcs : List NPCColor
deriving DecidableEq

/-- Observable outcome of one handleShoot call: the new session state,
whether a ray was cast, the NPC hit event (npc index and impact point)
and the cosmetic splash position. -/
structure ShootResult where
  state : ShootState
  rayCast : Bool
  npcHit : Option (ℕ × Point)
  splash : Option Point
deriving DecidableEq

/-- hitNPC.getColored(hitPoint): update the NPC at index i. -/
def colorNpcAt (npcs : List NPCColor) (i : ℕ) : List NPCColor :=
  match npcs[i]? with
  | some n => npcs.set i (getColoredStep n)
  | none => npcs

/-- handleShoot (part_002 lines 1211-1282, HoliGame.tsx lines 524-595):
return untouched unless gameStarted; return untouched when
waterLevel <= 0; otherwise deduct 5 water (floored at 0), cast the ray,
scan the intersections for the first NPC hit, and on a hit color that
NPC and add 10 score.  A splash is always drawn at the overall-nearest
intersection point when any intersection exists.  models lists the NPC
root objects in npcsRef order; its is nearest-first. -/
def handleShoot (st : ShootState) (models : List ℕ) (its : List Intersection) :
    ShootResult :=
  if st.gameStarted = false then ⟨st, false, none, none⟩
  else if st.waterLevel ≤ 0 then ⟨st, false, none, none⟩
  else
    let w : ℤ := max 0 (st.waterLevel - 5)
    match findNPCHit models its with
    | some (i, p) =>
      ⟨⟨st.gameStarted, w, st.score + 10, colorNpcAt st.npcs i⟩, true,
        some (i, p), (its.head?).map (fun it => it.point)⟩
    | none =>
      ⟨⟨st.gameStarted, w, st.score, st.npcs⟩, true,
        none, (its.head?).map (fun it => it.point)⟩

/-! Refill state machine (startRefilling and stopRefilling, part_002
lines 849-893; the refill triggers and stops in updateGame lines
1102-1105 and 1156-1166 and handleKeyUp lines 844-846). -/

/-- Events hitting the refill machinery while the hold is active:
a 100ms interval tick, a shoot, the R key release, and the player
leaving the 3.0-unit station range. -/
inductive REvent
  | tick
  | shoot
  | release
  | leaveRange
deriving DecidableEq

/-- water is the session waterLevel; captured is the interval closure
variable currentWaterLevel initialized from waterLevel when
startRefilling runs; refilling is the React refilling flag (true while
the interval is installed). -/
structure RState where
  water : ℤ
  captured : ℤ
  refilling : Bool
deriving DecidableEq

/-- One event step.  tick (the setInterval body, part_002 lines 862-877):
advance the captured counter by 2 clamped at 100, overwrite waterLevel
with it, and stopRefilling once it reaches 100.  shoot (handleShoot):
deduct 5 from waterLevel when positive; the captured counter and the
interval are untouched.  release and leaveRange call stopRefilling. -/
def refillStep (s : RState) : REvent → RState
  | .tick =>
    if s.refilling then
      let c := min 100 (s.captured + 2)
      ⟨c, c, if 100 ≤ c then false else s.refilling⟩
    else s
  | .shoot =>
    if 0 < s.water then ⟨max 0 (s.water - 5), s.captured, s.refilling⟩ else s
  | .release => if s.refilling then ⟨s.water, s.captured, false⟩ else s
  | .leaveRange => if s.refilling then ⟨s.water, s.captured, false⟩ else s

def runRefill (s : RState) : List REvent → RState
  | [] => s
  | e :: evs => runRefill (refillStep s e) evs

def countTick : List REvent → ℕ
  | [] => 0
  | REvent.tick :: evs => countTick evs + 1
  | _ :: evs => countTick evs

/-! NPC obstacle avoidance (part_002 updateGame lines 1040-1052).  This
fragment divides by a computed vector length, so it is embedded over the
real numbers with the square root kept literal. -/

/-- three.js Vector3.normalize restricted to the ground plane:
divideScalar(length || 1), so the zero vector is left unchanged. -/
noncomputable def normalizeR (v : ℝ × ℝ) : ℝ × ℝ :=
  let l := Real.sqrt (v.1 * v.1 + v.2 * v.2)
  (v.1 / (if l = 0 then 1 else l), v.2 / (if l = 0 then 1 else l))

/-- The avoidance for loop: for the first obstacle whose center is within
1.5 units of the NPC position p, reset moveDirection to
normalize(-dx, 0, -dz) with dx = obstacle.x - npc.x (and likewise dz),
then break; otherwise keep the current direction d. -/
noncomputable def avoidDir : List (ℝ × ℝ) → ℝ × ℝ → ℝ × ℝ → ℝ × ℝ
  | [], _, d => d
  | o :: rest, p, d =>
    if Real.sqrt ((o.1 - p.1) * (o.1 - p.1) + (o.2 - p.2) * (o.2 - p.2)) < 1.5 then
      normalizeR (-(o.1 - p.1), -(o.2 - p.2))
    else avoidDir rest p d

def dotR (a b : ℝ × ℝ) : ℝ := a.1 * b.1 + a.2 * b.2

/-! Theorems. -/

/-- C3: a shoot action issued while waterLevel is 0 with the session
started is rejected entirely: the session state is untouched, no ray is
cast, and no splash is produced, so neither waterLevel nor score changes. -/
theorem c3_shoot_rejected_when_empty (st : ShootState) (models : List ℕ)
    (its : List Intersection) (hs : st.gameStarted = true)
    (hw : st.waterLevel = 0) :
    (handleShoot st models its).state = st
  ∧ (handleShoot st models its).rayCast = false
  ∧ (handleShoot st models its).splash = none := by
  unfold handleShoot
  simp [hs, hw]

theorem c3_witness :
    (handleShoot ⟨true, 0, 7, [initNPC]⟩ [3] [⟨[3], (0, 0, 0)⟩]).state
      = ⟨true, 0, 7, [initNPC]⟩
  ∧ (handleShoot ⟨true, 0, 7, [initNPC]⟩ [3] [⟨[3], (0, 0, 0)⟩]).rayCast = false
  ∧ (handleShoot ⟨true, 0, 7, [initNPC]⟩ [3] [⟨[3], (0, 0, 0)⟩]).splash = none :=
  c3_shoot_rejected_when_empty ⟨true, 0, 7, [initNPC]⟩ [3] [⟨[3], (0, 0, 0)⟩] rfl rfl

/-- C4: a shoot action taken while waterLevel is positive always casts
the ray and sets waterLevel to max 0 (waterLevel - 5), that is a
decrement of exactly 5 clamped below at 0, for every intersection list
(NPC hit, scenery hit, or no hit at all). -/
theorem c4_shoot_cost (st : ShootState) (models : List ℕ)
    (its : List Intersection) (hs : st.gameStarted = true)
    (hw : 0 < st.waterLevel) :
    (handleShoot st models its).state.waterLevel = max 0 (st.waterLevel - 5)
  ∧ (handleShoot st models its).rayCast = true := by
  unfold handleShoot
  simp only [hs, Bool.true_eq_false, if_false, not_le.mpr hw, if_neg, ite_false]
  rcases h : findNPCHit models its with _ | ⟨i, p⟩ <;> simp

theorem c4_witness :
    ((handleShoot ⟨true, 3, 0, []⟩ [] []).state.waterLevel = max 0 ((3 : ℤ) - 5)
  ∧ (handleShoot ⟨true, 3, 0, []⟩ [] []).rayCast = true)
  ∧ max (0 : ℤ) (3 - 5) = 0 :=
  ⟨c4_shoot_cost ⟨true, 3, 0, []⟩ [] [] rfl (by decide), by decide⟩

/-- C7: from a Refilling state whose captured interval counter agrees
with waterLevel, a 100ms refill tick sets waterLevel to
min 100 (waterLevel + 2) and never decreases it; the tick leaves
Refilling exactly when waterLevel reaches 100 (the tick consults no hold
input); an R release or leaving station range also forces Idle, while a
shoot never does; and from waterLevel 96, two ticks (200ms) end at
waterLevel 100 in Idle. -/
theorem c7_refill_machine (s : RState) (hr : s.refilling = true)
    (hcw : s.captured = s.water) (hw : s.water ≤ 100) :
    (refillStep s REvent.tick).water = min 100 (s.water + 2)
  ∧ s.water ≤ (refillStep s REvent.tick).water
  ∧ ((refillStep s REvent.tick).refilling = false
      ↔ (refillStep s REvent.tick).water = 100)
  ∧ (refillStep s REvent.release).refilling = false
  ∧ (refillStep s REvent.leaveRange).refilling = false
  ∧ (refillStep s REvent.shoot).refilling = s.refilling
  ∧ (s.water = 96 →
      (runRefill s [REvent.tick, REvent.tick]).water = 100
      ∧ (runRefill s [REvent.tick, REvent.tick]).refilling = false) := by
  obtain ⟨w, c, r⟩ := s
  dsimp at hr hcw hw ⊢
  subst hr
  have htick : refillStep ⟨w, c, true⟩ REvent.tick
      = ⟨min 100 (w + 2), min 100 (w + 2),
          if 100 ≤ min 100 (w + 2) then false else true⟩ := by
    simp [refillStep, hcw]
  refine ⟨?_, ?_, ?_, ?_, ?_, ?_, ?_⟩
  · rw [htick]
  · rw [htick]
    exact le_min hw (by linarith)
  · rw [htick]
    rcases le_or_lt 100 (w + 2) with h | h
    · rw [min_eq_left h]
      simp
    · rw [min_eq_right h.le]
      simp only [not_le.mpr h, if_false]
      constructor
      · intro hfalse
        exact absurd hfalse (by simp)
      · intro heq
        exact absurd heq (by omega)
  · simp [refillStep]
  · simp [refillStep]
  · rcases lt_or_le 0 w with h | h
    · simp [refillStep, h]
    · simp [refillStep, not_lt.mpr h]
  · intro h96
    subst h96
    subst hcw
    decide

theorem c7_witness :
    (refillStep ⟨96, 96, true⟩ REvent.tick).water = min 100 (96 + 2)
  ∧ (96 : ℤ) ≤ (refillStep ⟨96, 96, true⟩ REvent.tick).water
  ∧ ((refillStep ⟨96, 96, true⟩ REvent.tick).refilling = false
      ↔ (refillStep ⟨96, 96, true⟩ REvent.tick).water = 100)
  ∧ (refillStep ⟨96, 96, true⟩ REvent.release).refilling = false
  ∧ (refillStep ⟨96, 96, true⟩ REvent.leaveRange).refilling = false
  ∧ (refillStep ⟨96, 96, true⟩ REvent.shoot).refilling = true
  ∧ ((96 : ℤ) = 96 →
      (runRefill ⟨96, 96, true⟩ [REvent.tick, REvent.tick]).water = 100
      ∧ (runRefill ⟨96, 96, true⟩ [REvent.tick, REvent.tick]).refilling = false) :=
  c7_refill_machine ⟨96, 96, true⟩ rfl rfl (by decide)

theorem runRefill_append (s : RState) (l1 l2 : List REvent) :
    runRefill s (l1 ++ l2) = runRefill (runRefill s l1) l2 := by
  induction l1 generalizing s with
  | nil => rfl
  | cons e l1 ih => rw [List.cons_append, runRefill, runRefill, ih]

theorem refill_run_captured (evs : List REvent) : ∀ c w : ℤ,
    (∀ e ∈ evs, e = REvent.tick ∨ e = REvent.shoot) →
    c + 2 * (countTick evs : ℤ) < 100 →
    (runRefill ⟨w, c, true⟩ evs).captured = c + 2 * (countTick evs : ℤ)
    ∧ (runRefill ⟨w, c, true⟩ evs).refilling = true := by
  induction evs with
  | nil => intro c w _ _; simp [runRefill, countTick]
  | cons e evs ih =>
    intro c w hall hlt
    have hall' : ∀ x ∈ evs, x = REvent.tick ∨ x = REvent.shoot :=
      fun x hx => hall x (List.mem_cons_of_mem e hx)
    have hk0 : (0 : ℤ) ≤ (countTick evs : ℤ) := Int.natCast_nonneg _
    cases e with
    | tick =>
      have hct : countTick (REvent.tick :: evs) = countTick evs + 1 := rfl
      rw [hct] at hlt
      have hcast : ((countTick evs + 1 : ℕ) : ℤ) = (countTick evs : ℤ) + 1 := by
        push_cast
        ring
      rw [hcast] at hlt
      have hc2 : c + 2 < 100 := by linarith
      have hstep : refillStep ⟨w, c, true⟩ REvent.tick = ⟨c + 2, c + 2, true⟩ := by
        have hmin : min (100 : ℤ) (c + 2) = c + 2 := min_eq_right hc2.le
        have hlt2 : ¬ (100 : ℤ) ≤ c + 2 := not_le.mpr hc2
        simp [refillStep, hmin, hlt2]
      rw [runRefill, hstep]
      have hlt' : c + 2 + 2 * (countTick evs : ℤ) < 100 := by linarith
      obtain ⟨h1, h2⟩ := ih (c + 2) (c + 2) hall' hlt'
      refine ⟨?_, h2⟩
      rw [h1, hct, hcast]
      ring
    | shoot =>
      have hct : countTick (REvent.shoot :: evs) = countTick evs := rfl
      rw [hct] at hlt
      rw [runRefill]
      rcases lt_or_le 0 w with hpos | hpos
      · have hstep : refillStep ⟨w, c, true⟩ REvent.shoot = ⟨max 0 (w - 5), c, true⟩ := by
          simp [refillStep, hpos]
        rw [hstep]
        obtain ⟨h1, h2⟩ := ih c (max 0 (w - 5)) hall' hlt
        exact ⟨by rw [h1, hct], h2⟩
      · have hstep : refillStep ⟨w, c, true⟩ REvent.shoot = ⟨w, c, true⟩ := by
          simp [refillStep, not_lt.mpr hpos]
        rw [hstep]
        obtain ⟨h1, h2⟩ := ih c w hall' hlt
        exact ⟨by rw [h1, hct], h2⟩
    | release =>
      rcases hall REvent.release (List.mem_cons_self _ _) with h | h <;> cases h
    | leaveRange =>
      rcases hall REvent.leaveRange (List.mem_cons_self _ _) with h | h <;> cases h

/-- C10: the refill interval advances the captured closure counter, and
each tick overwrites waterLevel with min 100 (captured + 2k) after k
ticks; interleaved shoot actions (each deducting 5 from waterLevel) are
discarded by the next refill tick, so for any mix of shots and k+1 live
refill ticks starting from captured value c, the waterLevel observed
after the last tick is min 100 (c + 2(k+1)), independent of the shots. -/
theorem c10_refill_overwrite (evs : List REvent) (c w : ℤ)
    (hall : ∀ e ∈ evs, e = REvent.tick ∨ e = REvent.shoot)
    (hlt : c + 2 * (countTick evs : ℤ) < 100) :
    (runRefill ⟨w, c, true⟩ (evs ++ [REvent.tick])).water
      = min 100 (c + 2 * ((countTick evs : ℤ) + 1)) := by
  obtain ⟨hcap, href⟩ := refill_run_captured evs c w hall hlt
  rw [runRefill_append, runRefill, runRefill]
  simp only [refillStep, href, if_true]
  rw [hcap]
  congr 1
  ring

theorem applyHits_init (k : ℕ) :
    applyHits initNPC k = ⟨min (k : ℤ) 3, decide (1 ≤ k), true⟩ := by
  induction k with
  | zero =>
    show initNPC = _
    have h0 : min ((0 : ℕ) : ℤ) 3 = 0 := by norm_num
    have hd : decide (1 ≤ 0) = false := by decide
    rw [initNPC, h0, hd]
  | succ k ih =>
    have hstep : applyHits initNPC (k + 1) = getColoredStep (applyHits initNPC k) := rfl
    rw [hstep, ih]
    unfold getColoredStep
    by_cases h3 : (3 : ℤ) ≤ min (k : ℤ) 3
    · rw [if_pos (Or.inr h3)]
      have hk3 : (3 : ℤ) ≤ (k : ℤ) := le_trans h3 (min_le_left _ _)
      have hk1 : 1 ≤ k := by omega
      have hmin : min ((k : ℤ)) 3 = min (((k + 1 : ℕ)) : ℤ) 3 := by
        push_cast
        omega
      rw [hmin, decide_eq_true hk1, decide_eq_true (by omega : 1 ≤ k + 1)]
    · have hguard : ¬ ((⟨min (k : ℤ) 3, decide (1 ≤ k), true⟩ : NPCColor).hasModel = false
          ∨ 3 ≤ (⟨min (k : ℤ) 3, decide (1 ≤ k), true⟩ : NPCColor).colorLevel) := by
        simp [h3]
      rw [if_neg hguard]
      have hklt : (k : ℤ) < 3 := by omega
      have hmin : min ((k : ℤ)) 3 + 1 = min (((k + 1 : ℕ)) : ℤ) 3 := by
        push_cast
        omega
      simp only [NPCColor.mk.injEq]
      exact ⟨hmin, by rw [decide_eq_true (by omega : 1 ≤ k + 1)], trivial⟩

/-- C5: starting from a freshly created NPC, colorLevel is 0 and after
any number k of getColored calls it stays within [0, 3] and is
monotonically non-decreasing in k; a call that changes the state raises
colorLevel by exactly 1 and sets isColored; a call made when colorLevel
is 3 leaves the state unchanged; and isColored is true from the first
successful hit on and is never reset. -/
theorem c5_color_level (k : ℕ) :
    initNPC.colorLevel = 0 ∧ initNPC.isColored = false
  ∧ 0 ≤ (applyHits initNPC k).colorLevel
  ∧ (applyHits initNPC k).colorLevel ≤ 3
  ∧ (applyHits initNPC k).colorLevel ≤ (applyHits initNPC (k + 1)).colorLevel
  ∧ (applyHits initNPC (k + 1) ≠ applyHits initNPC k →
      (applyHits initNPC (k + 1)).colorLevel = (applyHits initNPC k).colorLevel + 1
      ∧ (applyHits initNPC (k + 1)).isColored = true)
  ∧ ((applyHits initNPC k).colorLevel = 3 →
      applyHits initNPC (k + 1) = applyHits initNPC k)
  ∧ (1 ≤ k → (applyHits initNPC k).isColored = true) := by
  have hk := applyHits_init k
  have hk1 := applyHits_init (k + 1)
  rw [hk, hk1]
  refine ⟨rfl, rfl, ?_, ?_, ?_, ?_, ?_, ?_⟩
  · dsimp
    exact le_min (Int.natCast_nonneg k) (by norm_num)
  · exact min_le_right _ _
  · dsimp
    push_cast
    omega
  · intro hne
    by_cases hk3 : 3 ≤ k
    · exfalso
      apply hne
      simp only [NPCColor.mk.injEq]
      refine ⟨by push_cast; omega, ?_, trivial⟩
      rw [decide_eq_true (by omega : 1 ≤ k + 1), decide_eq_true (by omega : 1 ≤ k)]
    · constructor
      · dsimp
        push_cast
        omega
      · dsimp
        rw [decide_eq_true (by omega : 1 ≤ k + 1)]
  · intro h3
    dsimp at h3
    have hk3 : 3 ≤ k := by omega
    simp only [NPCColor.mk.injEq]
    refine ⟨by push_cast; omega, ?_, trivial⟩
    rw [decide_eq_true (by omega : 1 ≤ k + 1), decide_eq_true (by omega : 1 ≤ k)]
  · intro h1
    dsimp
    rw [decide_eq_true h1]

theorem c5_witness :
    ((applyHits initNPC 3).colorLevel = 3 →
      applyHits initNPC (3 + 1) = applyHits initNPC 3)
  ∧ applyHits initNPC (3 + 1) = applyHits initNPC 3
  ∧ (applyHits initNPC 3).isColored = true :=
  ⟨(c5_color_level 3).2.2.2.2.2.2.1,
    (c5_color_level 3).2.2.2.2.2.2.1 (by decide),
    (c5_color_level 3).2.2.2.2.2.2.2 (by decide)⟩

theorem halfMap_nonneg : (0 : ℚ) ≤ halfMap := by
  norm_num [halfMap, mapSize]

theorem clampAxis_bounds (h v : ℚ) (h0 : 0 ≤ h) :
    -h ≤ clampAxis h v ∧ clampAxis h v ≤ h := by
  unfold clampAxis
  constructor
  · exact le_max_left _ _
  · exact max_le (by linarith) (min_le_left _ _)

theorem npcClampAxis_bounds (h v : ℚ) (h0 : 0 ≤ h) :
    -h ≤ npcClampAxis h v ∧ npcClampAxis h v ≤ h := by
  unfold npcClampAxis
  split_ifs with h1 h2
  · constructor <;> linarith
  · constructor <;> linarith
  · push_neg at h1 h2
    constructor <;> linarith

theorem clampVec_inBounds (p : Vec2) : inBounds (clampVec halfMap p) := by
  obtain ⟨a1, a2⟩ := clampAxis_bounds halfMap p.x halfMap_nonneg
  obtain ⟨b1, b2⟩ := clampAxis_bounds halfMap p.z halfMap_nonneg
  exact ⟨a1, a2, b1, b2⟩

theorem npcClampVec_inBounds (p : Vec2) : inBounds (npcClampVec halfMap p) := by
  obtain ⟨a1, a2⟩ := npcClampAxis_bounds halfMap p.x halfMap_nonneg
  obtain ⟨b1, b2⟩ := npcClampAxis_bounds halfMap p.z halfMap_nonneg
  exact ⟨a1, a2, b1, b2⟩

theorem npcTickPos_inBounds (pos dir : Vec2) : inBounds (npcTickPos pos dir) :=
  npcClampVec_inBounds _

theorem npcsTick_inBounds (dirs : ℕ → Vec2) (l : List Vec2) :
    ∀ i : ℕ, ∀ q ∈ npcsTick dirs i l, inBounds q := by
  induction l with
  | nil =>
    intro i q hq
    simp [npcsTick] at hq
  | cons p rest ih =>
    intro i q hq
    rw [npcsTick] at hq
    rcases List.mem_cons.mp hq with h | h
    · rw [h]
      exact npcTickPos_inBounds _ _
    · exact ih (i + 1) q h

theorem applyMoveKeys_no_move (k : Keys) (fwd right p : Vec2)
    (h : movedFlag k = false) : applyMoveKeys k fwd right p = p := by
  simp only [movedFlag, Bool.or_eq_false_iff] at h
  obtain ⟨⟨⟨⟨⟨hw, hs⟩, ha⟩, hd⟩, hq⟩, he⟩ := h
  simp [applyMoveKeys, hw, hs, ha, hd]

theorem playerUpdate_eq (started : Bool) (obs : List Vec2) (h : ℚ) (k : Keys)
    (fwd right p : Vec2) :
    playerUpdate started obs h k fwd right p =
      if started then
        if movedFlag k then
          clampVec h (if collides obs (applyMoveKeys k fwd right p) then p
            else applyMoveKeys k fwd right p)
        else applyMoveKeys k fwd right p
      else p := rfl

theorem playerUpdate_inBounds (started : Bool) (obs : List Vec2) (k : Keys)
    (fwd right p : Vec2) (hp : inBounds p) :
    inBounds (playerUpdate started obs halfMap k fwd right p) := by
  rw [playerUpdate_eq]
  cases started with
  | false => simpa using hp
  | true =>
    cases hmv : movedFlag k with
    | true =>
      simp only [hmv, if_true]
      exact clampVec_inBounds _
    | false =>
      simp only [hmv, Bool.false_eq_true, if_false, if_true]
      rw [applyMoveKeys_no_move k fwd right p hmv]
      exact hp

/-- C2: world-bounds invariant.  If the player and every NPC start inside
the square [-mapSize/2, mapSize/2] on both ground axes, then after any
sequence of updateGame ticks (any key flags, any camera orientation, any
NPC directions) the player and every NPC are still inside it: the player
either does not move or is clamped at the end of the moved branch, and
every NPC is clamped unconditionally after npc.update. -/
theorem c2_bounds_invariant (obs : List Vec2) (w0 : World)
    (inps : List TickInput) (hp : inBounds w0.player)
    (hn : ∀ q ∈ w0.npcs, inBounds q) :
    inBounds (runWorld obs w0 inps).player
  ∧ ∀ q ∈ (runWorld obs w0 inps).npcs, inBounds q := by
  induction inps generalizing w0 with
  | nil => exact ⟨hp, hn⟩
  | cons inp rest ih =>
    rw [runWorld]
    exact ih (worldTick obs inp w0)
      (playerUpdate_inBounds _ _ _ _ _ _ hp)
      (npcsTick_inBounds _ _ 0)

theorem c2_witness :
    inBounds (runWorld [] ⟨⟨0, 0⟩, [⟨1, 1⟩]⟩
      [⟨true, ⟨true, false, false, false, false, false⟩, ⟨0, -1⟩, ⟨1, 0⟩,
        fun _ => ⟨1, 0⟩⟩]).player
  ∧ ∀ q ∈ (runWorld [] ⟨⟨0, 0⟩, [⟨1, 1⟩]⟩
      [⟨true, ⟨true, false, false, false, false, false⟩, ⟨0, -1⟩, ⟨1, 0⟩,
        fun _ => ⟨1, 0⟩⟩]).npcs, inBounds q :=
  c2_bounds_invariant [] ⟨⟨0, 0⟩, [⟨1, 1⟩]⟩ _
    (by norm_num [inBounds, halfMap, mapSize])
    (by
      intro q hq
      simp only [List.mem_singleton] at hq
      subst hq
      norm_num [inBounds, halfMap, mapSize])

theorem clampAxis_eq_self (h v : ℚ) (h1 : -h ≤ v) (h2 : v ≤ h) :
    clampAxis h v = v := by
  unfold clampAxis
  rw [min_eq_right h2, max_eq_right h1]

/-- C6: all-or-nothing collision revert.  For a started tick, if the
position tentatively reached after applying all of the movement
intents lies within 1.0 ground-plane unit of some obstacle center, the
player position at the end of the tick equals the pre-tick position
exactly (given the pre-tick position obeys the world-bounds invariant,
so the final clamp is the identity on it). -/
theorem c6_collision_revert (obs : List Vec2) (k : Keys) (fwd right p : Vec2)
    (hb : inBounds p)
    (hc : collides obs (applyMoveKeys k fwd right p) = true) :
    playerUpdate true obs halfMap k fwd right p = p := by
  obtain ⟨h1, h2, h3, h4⟩ := hb
  rw [playerUpdate_eq]
  cases hmv : movedFlag k with
  | true =>
    simp only [hmv, hc, if_true]
    show clampVec halfMap p = p
    unfold clampVec
    rw [clampAxis_eq_self _ _ h1 h2, clampAxis_eq_self _ _ h3 h4]
  | false =>
    simp only [hmv, Bool.false_eq_true, if_false, if_true]
    exact applyMoveKeys_no_move k fwd right p hmv

theorem c6_witness :
    playerUpdate true [⟨0, 0⟩] halfMap ⟨true, false, false, false, false, false⟩
      ⟨0, -1⟩ ⟨1, 0⟩ ⟨0, 0⟩ = ⟨0, 0⟩ :=
  c6_collision_revert [⟨0, 0⟩] ⟨true, false, false, false, false, false⟩
    ⟨0, -1⟩ ⟨1, 0⟩ ⟨0, 0⟩ (by norm_num [inBounds, halfMap, mapSize])
    (by norm_num [collides, applyMoveKeys, distSq, vadd, vsmul, moveSpeed])

theorem findNPCHit_first (models : List ℕ) :
    ∀ (its : List Intersection) (i : ℕ) (pt : Point),
    findNPCHit models its = some (i, pt) ↔
    ∃ (k : ℕ) (it : Intersection), its[k]? = some it
      ∧ findNPCInChain models it.chain = some i
      ∧ it.point = pt
      ∧ ∀ (j : ℕ), j < k → ∀ (u : Intersection), its[j]? = some u →
          findNPCInChain models u.chain = none := by
  intro its
  induction its with
  | nil =>
    intro i pt
    simp [findNPCHit]
  | cons it0 rest ih =>
    intro i pt
    rcases h0 : findNPCInChain models it0.chain with _ | i0
    · have hred : findNPCHit models (it0 :: rest) = findNPCHit models rest := by
        rw [findNPCHit, h0]
      rw [hred, ih]
      constructor
      · rintro ⟨k, it, hk, hchain, hpt, hpre⟩
        refine ⟨k + 1, it, by simpa using hk, hchain, hpt, ?_⟩
        intro j hj u hu
        cases j with
        | zero =>
          rw [List.getElem?_cons_zero, Option.some.injEq] at hu
          rw [← hu]
          exact h0
        | succ j =>
          rw [List.getElem?_cons_succ] at hu
          exact hpre j (by omega) u hu
      · rintro ⟨k, it, hk, hchain, hpt, hpre⟩
        cases k with
        | zero =>
          rw [List.getElem?_cons_zero, Option.some.injEq] at hk
          rw [← hk] at hchain
          rw [h0] at hchain
          cases hchain
        | succ k =>
          rw [List.getElem?_cons_succ] at hk
          refine ⟨k, it, hk, hchain, hpt, ?_⟩
          intro j hj u hu
          exact hpre (j + 1) (by omega) u (by simpa using hu)
    · have hred : findNPCHit models (it0 :: rest) = some (i0, it0.point) := by
        rw [findNPCHit, h0]
      rw [hred]
      constructor
      · intro h
        rw [Option.some.injEq, Prod.mk.injEq] at h
        obtain ⟨hi, hpt⟩ := h
        refine ⟨0, it0, List.getElem?_cons_zero, ?_, hpt, ?_⟩
        · rw [← hi]
          exact h0
        · intro j hj
          omega
      · rintro ⟨k, it, hk, hchain, hpt, hpre⟩
        cases k with
        | zero =>
          rw [List.getElem?_cons_zero, Option.some.injEq] at hk
          subst hk
          rw [h0, Option.some.injEq] at hchain
          rw [Option.some.injEq, Prod.mk.injEq]
          exact ⟨hchain, hpt⟩
        | succ k =>
          have := hpre 0 (by omega) it0 List.getElem?_cons_zero
          rw [h0] at this
          cases this

/-- C1 (amended): for a started shoot with water available, the ray
intersections are scanned in nearest-first order and the reported NPC
hit is the first intersection on the list whose object (or one of its
scene-graph ancestors) is the root of some NPC, with the impact point taken
from that same intersection, even when a nearer intersection hit plain
scenery; the cosmetic splash is always placed at the overall-nearest
intersection point.  (The original claim,
that only the overall-nearest intersection can produce the NPC hit,
is refuted by the counterexample theorem.) -/
theorem c1_first_npc_scan (st : ShootState) (models : List ℕ)
    (its : List Intersection) (hs : st.gameStarted = true)
    (hw : 0 < st.waterLevel) :
    (∀ (i : ℕ) (pt : Point),
      (handleShoot st models its).npcHit = some (i, pt) ↔
      ∃ (k : ℕ) (it : Intersection), its[k]? = some it
        ∧ findNPCInChain models it.chain = some i
        ∧ it.point = pt
        ∧ ∀ (j : ℕ), j < k → ∀ (u : Intersection), its[j]? = some u →
            findNPCInChain models u.chain = none)
  ∧ (handleShoot st models its).splash = (its.head?).map (fun u => u.point) := by
  have hsh : (handleShoot st models its).npcHit = findNPCHit models its
      ∧ (handleShoot st models its).splash
          = (its.head?).map (fun u => u.point) := by
    unfold handleShoot
    simp only [hs, Bool.true_eq_false, if_false, not_le.mpr hw, ite_false]
    rcases h : findNPCHit models its with _ | ⟨i, p⟩ <;> simp [h]
  refine ⟨fun i pt => ?_, hsh.2⟩
  rw [hsh.1]
  exact findNPCHit_first models its i pt

/-- C1 counterexample: with one NPC whose root object is 5, and a ray
whose nearest intersection is scenery object 1 while the second, farther
intersection is object 2 sitting under the NPC root 5, handleShoot
still reports an NPC hit (with the farther impact point), although the
overall-nearest intersection does not belong to any NPC hierarchy -- so
an NPC behind nearer scenery is credited as hit, contradicting the
claim. -/
theorem c1_counterexample :
    (handleShoot ⟨true, 100, 0, [initNPC]⟩ [5]
        [⟨[1], (0, 0, 0)⟩, ⟨[2, 5], (1, 1, 1)⟩]).npcHit = some (0, (1, 1, 1))
  ∧ findNPCInChain [5] [1] = none := by
  constructor
  · rfl
  · rfl

theorem c1_witness :
    ((handleShoot ⟨true, 100, 0, [initNPC]⟩ [5]
        [⟨[1], (0, 0, 0)⟩, ⟨[2, 5], (1, 1, 1)⟩]).npcHit = some (0, (1, 1, 1)) ↔
      ∃ (k : ℕ) (it : Intersection),
        [(⟨[1], (0, 0, 0)⟩ : Intersection), ⟨[2, 5], (1, 1, 1)⟩][k]? = some it
        ∧ findNPCInChain [5] it.chain = some 0
        ∧ it.point = (1, 1, 1)
        ∧ ∀ (j : ℕ), j < k → ∀ (u : Intersection),
            [(⟨[1], (0, 0, 0)⟩ : Intersection), ⟨[2, 5], (1, 1, 1)⟩][j]? = some u →
            findNPCInChain [5] u.chain = none) ∧
    (handleShoot ⟨true, 100, 0, [initNPC]⟩ [5]
        [⟨[1], (0, 0, 0)⟩, ⟨[2, 5], (1, 1, 1)⟩]).splash
      = (([(⟨[1], (0, 0, 0)⟩ : Intersection), ⟨[2, 5], (1, 1, 1)⟩].head?).map
          (fun u => u.point)) :=
  ⟨(c1_first_npc_scan ⟨true, 100, 0, [initNPC]⟩ [5]
      [⟨[1], (0, 0, 0)⟩, ⟨[2, 5], (1, 1, 1)⟩] rfl (by decide)).1 0 (1, 1, 1),
    (c1_first_npc_scan ⟨true, 100, 0, [initNPC]⟩ [5]
      [⟨[1], (0, 0, 0)⟩, ⟨[2, 5], (1, 1, 1)⟩] rfl (by decide)).2⟩

theorem list_set_self {α : Type} (l : List α) :
    ∀ (i : ℕ) (a : α), l[i]? = some a → l.set i a = l := by
  induction l with
  | nil =>
    intro i a h
    simp at h
  | cons hd tl ih =>
    intro i a h
    cases i with
    | zero =>
      rw [List.getElem?_cons_zero, Option.some.injEq] at h
      rw [← h]
      rfl
    | succ i =>
      rw [List.getElem?_cons_succ] at h
      show hd :: tl.set i a = hd :: tl
      rw [ih i a h]

/-- C9: whenever the intersection scan finds an NPC, handleShoot adds
exactly 10 to the score with no further condition; in particular when
the NPC found is already saturated at colorLevel 3, getColored is a
silent no-op, so the score still grows by 10 while the NPC list is
unchanged. -/
theorem c9_score_saturated (st : ShootState) (models : List ℕ)
    (its : List Intersection) (i : ℕ) (pt : Point)
    (hs : st.gameStarted = true) (hw : 0 < st.waterLevel)
    (hf : findNPCHit models its = some (i, pt)) :
    (handleShoot st models its).state.score = st.score + 10
  ∧ ∀ n, st.npcs[i]? = some n → 3 ≤ n.colorLevel →
      (handleShoot st models its).state.npcs = st.npcs := by
  have hsh : (handleShoot st models its).state
      = ⟨st.gameStarted, max 0 (st.waterLevel - 5), st.score + 10,
          colorNpcAt st.npcs i⟩ := by
    unfold handleShoot
    simp only [hs, Bool.true_eq_false, if_false, not_le.mpr hw, ite_false, hf]
  rw [hsh]
  refine ⟨rfl, ?_⟩
  intro n hn hsat
  have hnoop : getColoredStep n = n := by
    unfold getColoredStep
    rw [if_pos (Or.inr hsat)]
  have hcn : colorNpcAt st.npcs i = st.npcs.set i (getColoredStep n) := by
    unfold colorNpcAt
    rw [hn]
  show colorNpcAt st.npcs i = st.npcs
  rw [hcn, hnoop]
  exact list_set_self st.npcs i n hn

theorem c9_witness :
    (handleShoot ⟨true, 100, 0, [⟨3, true, true⟩]⟩ [7]
        [⟨[7], (0, 0, 0)⟩]).state.score = 0 + 10
  ∧ (handleShoot ⟨true, 100, 0, [⟨3, true, true⟩]⟩ [7]
        [⟨[7], (0, 0, 0)⟩]).state.npcs = [⟨3, true, true⟩] :=
  ⟨(c9_score_saturated ⟨true, 100, 0, [⟨3, true, true⟩]⟩ [7]
      [⟨[7], (0, 0, 0)⟩] 0 (0, 0, 0) rfl (by decide) rfl).1,
    (c9_score_saturated ⟨true, 100, 0, [⟨3, true, true⟩]⟩ [7]
      [⟨[7], (0, 0, 0)⟩] 0 (0, 0, 0) rfl (by decide) rfl).2
      ⟨3, true, true⟩ rfl (by decide)⟩

theorem c10_witness :
    (runRefill ⟨50, 50, true⟩
        ([REvent.shoot, REvent.tick, REvent.shoot] ++ [REvent.tick])).water
      = min 100 (50 + 2 * ((countTick [REvent.shoot, REvent.tick, REvent.shoot] : ℤ) + 1)) :=
  c10_refill_overwrite [REvent.shoot, REvent.tick, REvent.shoot] 50 50
    (by decide) (by decide)

theorem avoidDir_first_near (post : List (ℝ × ℝ)) (o p d : ℝ × ℝ)
    (hnear : Real.sqrt ((o.1 - p.1) * (o.1 - p.1) + (o.2 - p.2) * (o.2 - p.2)) < 1.5) :
    ∀ pre : List (ℝ × ℝ),
    (∀ q ∈ pre,
      ¬ Real.sqrt ((q.1 - p.1) * (q.1 - p.1) + (q.2 - p.2) * (q.2 - p.2)) < 1.5) →
    avoidDir (pre ++ o :: post) p d = normalizeR (-(o.1 - p.1), -(o.2 - p.2)) := by
  intro pre
  induction pre with
  | nil =>
    intro _
    rw [List.nil_append]
    show avoidDir (o :: post) p d = _
    rw [avoidDir, if_pos hnear]
  | cons q rest ih =>
    intro hpre
    rw [List.cons_append]
    show avoidDir (q :: (rest ++ o :: post)) p d = _
    rw [avoidDir, if_neg (hpre q (List.mem_cons_self q rest))]
    exact ih (fun x hx => hpre x (List.mem_cons_of_mem q hx))

/-- C8: in the avoidance loop of updateGame, when an NPC at ground
position p is strictly within 1.5 units of an obstacle o (the first such
obstacle in registry order) and is not exactly at its center, the NPC
moveDirection is reassigned to the normalized horizontal vector from the
obstacle toward the NPC, and the dot product of the new direction with
the obstacle-to-NPC vector is positive. -/
theorem c8_avoid_direction (pre post : List (ℝ × ℝ)) (o p d : ℝ × ℝ)
    (hpre : ∀ q ∈ pre,
      ¬ Real.sqrt ((q.1 - p.1) * (q.1 - p.1) + (q.2 - p.2) * (q.2 - p.2)) < 1.5)
    (hnear : Real.sqrt ((o.1 - p.1) * (o.1 - p.1) + (o.2 - p.2) * (o.2 - p.2)) < 1.5)
    (hne : o ≠ p) :
    avoidDir (pre ++ o :: post) p d = normalizeR (p.1 - o.1, p.2 - o.2)
  ∧ 0 < dotR (avoidDir (pre ++ o :: post) p d) (p.1 - o.1, p.2 - o.2) := by
  have hav : avoidDir (pre ++ o :: post) p d
      = normalizeR (p.1 - o.1, p.2 - o.2) := by
    rw [avoidDir_first_near post o p d hnear pre hpre, neg_sub, neg_sub]
  refine ⟨hav, ?_⟩
  rw [hav]
  have hab : p.1 - o.1 ≠ 0 ∨ p.2 - o.2 ≠ 0 := by
    by_contra hcon
    push_neg at hcon
    obtain ⟨h1, h2⟩ := hcon
    apply hne
    rw [Prod.ext_iff]
    constructor
    · linarith
    · linarith
  have hS : 0 < (p.1 - o.1) * (p.1 - o.1) + (p.2 - o.2) * (p.2 - o.2) := by
    rcases hab with h | h
    · have h1 := mul_self_pos.mpr h
      have h2 := mul_self_nonneg (p.2 - o.2)
      linarith
    · have h1 := mul_self_pos.mpr h
      have h2 := mul_self_nonneg (p.1 - o.1)
      linarith
  have hl : 0 < Real.sqrt ((p.1 - o.1) * (p.1 - o.1) + (p.2 - o.2) * (p.2 - o.2)) :=
    Real.sqrt_pos.mpr hS
  have hlne : Real.sqrt ((p.1 - o.1) * (p.1 - o.1) + (p.2 - o.2) * (p.2 - o.2)) ≠ 0 :=
    ne_of_gt hl
  have hnorm : normalizeR (p.1 - o.1, p.2 - o.2)
      = (((p.1 - o.1)
            / Real.sqrt ((p.1 - o.1) * (p.1 - o.1) + (p.2 - o.2) * (p.2 - o.2))),
          ((p.2 - o.2)
            / Real.sqrt ((p.1 - o.1) * (p.1 - o.1) + (p.2 - o.2) * (p.2 - o.2)))) := by
    unfold normalizeR
    dsimp
    rw [if_neg hlne]
  rw [hnorm]
  unfold dotR
  dsimp
  rw [div_mul_eq_mul_div, div_mul_eq_mul_div, div_add_div_same]
  exact div_pos hS hl

theorem c8_witness :
    Real.sqrt (((0 : ℝ) - 1) * ((0 : ℝ) - 1) + ((0 : ℝ) - 0) * ((0 : ℝ) - 0)) < 1.5
  ∧ 0 < dotR (avoidDir [((0 : ℝ), (0 : ℝ))] (1, 0) (0, 0)) ((1 : ℝ) - 0, (0 : ℝ) - 0) := by
  have hnear : Real.sqrt (((0 : ℝ) - 1) * ((0 : ℝ) - 1)
      + ((0 : ℝ) - 0) * ((0 : ℝ) - 0)) < 1.5 := by
    have h1 : ((0 : ℝ) - 1) * ((0 : ℝ) - 1) + ((0 : ℝ) - 0) * ((0 : ℝ) - 0) = 1 := by
      ring
    rw [h1, Real.sqrt_one]
    norm_num
  refine ⟨hnear, ?_⟩
  exact (c8_avoid_direction [] [] (0, 0) (1, 0) (0, 0)
    (by intro q hq; cases hq) hnear (by norm_num [Prod.ext_iff])).2

end HoliSplash
